import Mathlib

/-!
Verification development for the PDB knowledge-graph ingestion tool.

The Python source (`pdb_kg`) downloads PDB entries, proteins, and drug
cofactors and stores them as nodes and relationships in a Neo4j graph
database.  This file gives a shallow embedding of the components the
specification talks about:

* the Cypher value serializer `_to_cypher` (graph_db.py);
* the node-upsert transaction `_update_entry_transaction` / `update_node`
  and `create_relationship`, together with an explicit model of the
  store's MERGE / SET / CREATE semantics;
* the ingestion pipeline `form_kg` (download_kg.py) with its per-run
  dedup sets;
* the batching logic of `DownloadManager.__download_entries` and the
  completion-order streaming of `__await_concurrently`
  (download_manager.py);
* the tenacity retry policy `_RETRY` (download_tasks.py);
* the shortest-path query `get_path` (graph_db.py);
* a small-step transition system for the semaphore + rate-limiter gate
  of `DownloadManager.__do_download`.
-/

/-! ## Python-side values

`_to_cypher` is a `singledispatch` function over the Python values that
occur as node attributes: strings, ints, `None`, `UUID`s, lists / tuples /
sets (all rendered as Cypher lists) and dicts.  We model this value domain
as an inductive type.  Python sets and tuples are modelled as lists (the
code itself converts both to lists before rendering). -/

inductive PyValue where
  | pyStr (s : String)
  | pyInt (n : Int)
  | pyNone
  | pyUuid (s : String)
  | pyList (xs : List PyValue)
  | pyDict (ps : List (String × PyValue))

/-- Embeds `value.replace('"', "")` from the `str` register of `_to_cypher`:
Python's `str.replace` with an empty replacement deletes every occurrence
of the double-quote character. -/
def stripQuotes (s : String) : String :=
  ⟨s.data.filter (fun c => c ≠ '"')⟩

/-- The string literal produced by the `str` register of `_to_cypher`:
`f'"{value.replace(chr(34), "")}"'`, i.e. the quote-stripped payload
wrapped in double quotes.  The `int` and `UUID` registers both call
`_to_cypher(str(value))`, so they also land here. -/
def strLit (s : String) : String :=
  ⟨'"' :: (stripQuotes s).data ++ ['"']⟩

mutual

/-- Embeds `_to_cypher` (graph_db.py lines 26-102): the `str` register
deletes embedded double quotes and wraps the result in double quotes
(`strLit`); the `int` and `UUID` registers convert the value with `str`
and re-dispatch to the `str` register; `None` renders as `null`; `list`
(also `tuple` and `set`, which the source converts to lists) renders
elements separated by commas inside square brackets; `dict` renders
`key: value` pairs inside braces. -/
def toCypher : PyValue → String
  | .pyStr s => strLit s
  | .pyInt n => strLit (toString n)
  | .pyNone => "null"
  | .pyUuid s => strLit s
  | .pyList xs => "[" ++ String.intercalate "," (toCypherList xs) ++ "]"
  | .pyDict ps => "\x7b" ++ String.intercalate ", " (toCypherPairs ps) ++ "\x7d"

/-- Renders each element of a Python list (the list comprehension in the
`list` register of `_to_cypher`). -/
def toCypherList : List PyValue → List String
  | [] => []
  | v :: vs => toCypher v :: toCypherList vs

/-- Renders each `key: value` pair of a Python dict (the
`": ".join(item)` comprehension in the `dict` register of `_to_cypher`). -/
def toCypherPairs : List (String × PyValue) → List String
  | [] => []
  | (k, v) :: ps => (k ++ ": " ++ toCypher v) :: toCypherPairs ps

end

/-- A string contains no double-quote character. -/
def NoQuote (s : String) : Prop := '"' ∉ s.data

instance (s : String) : Decidable (NoQuote s) := by
  unfold NoQuote; infer_instance

/-- Strips the first and last character of a rendered string literal —
the recovery map for quote-free strings. -/
def stripDelimiters (s : String) : String :=
  ⟨(s.data.drop 1).dropLast⟩

theorem stripQuotes_eq_self {s : String} (h : NoQuote s) : stripQuotes s = s := by
  apply String.ext
  show s.data.filter (fun c => c ≠ '"') = s.data
  refine List.filter_eq_self.mpr ?_
  intro c hc
  simp only [decide_eq_true_eq]
  intro hEq
  exact h (hEq ▸ hc)

theorem toCypher_str_injOn {s t : String} (hs : NoQuote s) (ht : NoQuote t)
    (h : toCypher (.pyStr s) = toCypher (.pyStr t)) : s = t := by
  have h2 : '"' :: s.data ++ ['"'] = '"' :: t.data ++ ['"'] := by
    have h3 := congrArg String.data h
    simpa [toCypher, strLit, stripQuotes_eq_self hs, stripQuotes_eq_self ht] using h3
  have h4 : s.data ++ ['"'] = t.data ++ ['"'] := by
    simpa using h2
  exact String.ext (List.append_cancel_right h4)

theorem stripDelimiters_toCypher {s : String} (h : NoQuote s) :
    stripDelimiters (toCypher (.pyStr s)) = s := by
  apply String.ext
  show ((toCypher (.pyStr s)).data.drop 1).dropLast = s.data
  simp [toCypher, strLit, stripQuotes_eq_self h]

/-! ## The graph store

Neo4j-side property values.  A Cypher string literal evaluates to the
string between its delimiters; numbers and quoted payloads that went
through `_to_cypher`'s `str` register arrive as strings.  Map literals
would evaluate to maps, list literals to lists. -/

inductive PropValue where
  | pstr (s : String)
  | pnull
  | plist (xs : List PropValue)
  | pmap (ps : List (String × PropValue))

mutual

/-- The Neo4j value denoted by the literal text `toCypher v` when it is
spliced into a query: `toCypher (.pyStr s)` is the literal `"s'"` (with
`s' = stripQuotes s`), which evaluates to the string `s'`; an int is
rendered via the `str` register and therefore arrives as the string
`toString n`; `null` evaluates to null; list and map literals evaluate
elementwise. -/
def literalValue : PyValue → PropValue
  | .pyStr s => .pstr (stripQuotes s)
  | .pyInt n => .pstr (stripQuotes (toString n))
  | .pyNone => .pnull
  | .pyUuid s => .pstr (stripQuotes s)
  | .pyList xs => .plist (literalValueList xs)
  | .pyDict ps => .pmap (literalValuePairs ps)

def literalValueList : List PyValue → List PropValue
  | [] => []
  | v :: vs => literalValue v :: literalValueList vs

def literalValuePairs : List (String × PyValue) → List (String × PropValue)
  | [] => []
  | (k, v) :: ps => (k, literalValue v) :: literalValuePairs ps

end

/-- A stored node: a label (the `NodeLabel.name` string the queries splice
in, e.g. `"ENTRY"`) and a property bag.  The list position of a node in
the store serves as its internal identity. -/
structure DBNode where
  label : String
  props : List (String × PropValue)

/-- The graph store: nodes (indexed by list position) and directed typed
relationships `(source index, target index, type)`.  Relationships are a
list, so duplicates are represented faithfully. -/
structure Store where
  nodes : List DBNode
  rels : List (Nat × Nat × String)

def emptyStore : Store := ⟨[], []⟩

def lookupProp : List (String × PropValue) → String → Option PropValue
  | [], _ => none
  | (k, v) :: rest, key => if k == key then some v else lookupProp rest key

/-- Tests whether an optional stored property equals the given string
value (Neo4j property comparison against a string parameter; a missing
property or a non-string value never compares equal). -/
def isPStr : Option PropValue → String → Bool
  | some (.pstr t), s => t == s
  | _, _ => false

/-- `SET node.k = v` for one key: overwrite an existing property or add a
new one. -/
def setProp : List (String × PropValue) → String → PropValue → List (String × PropValue)
  | [], k, v => [(k, v)]
  | (k', v') :: rest, k, v =>
    if k' == k then (k, v) :: rest else (k', v') :: setProp rest k v

/-- `SET node += map`: add or overwrite every property in the map. -/
def setProps (props : List (String × PropValue)) (m : List (String × PropValue)) :
    List (String × PropValue) :=
  m.foldl (fun ps kv => setProp ps kv.1 kv.2) props

/-! ### Python-side nodes

A pydantic node as seen by `graph_db.py`: its `label.name` string and the
field dict produced by `entry.dict()`.  The `label` field itself is a
`NodeLabel` enum and is unconditionally excluded from serialization
(`exclude_set = {"label"}` in the `NodeBase` register), so we keep it out
of the attribute list and carry the label name separately. -/

structure PyNode where
  label : String
  attrs : List (String × PyValue)

def getattrPy (n : PyNode) (attr : String) : PyValue :=
  ((n.attrs.lookup attr).getD .pyNone)

/-- An element of the `exclude_properties` iterable handed to the
`NodeBase` register of `_to_cypher`.  In `_update_entry_transaction` the
call is `_to_cypher(entry, exclude_properties=(key,))`, which passes the
whole key *tuple* as a single element — hence the tuple constructor. -/
inductive ExcludeItem where
  | sname (s : String)
  | stuple (ts : List String)

/-- Whether pydantic's `dict(exclude=...)` drops the field `f` for the
given exclude set: only a plain string element equal to the field name
excludes it; a tuple element matches no field name (pydantic looks the
field name up among the set's elements). -/
def excludesField (items : List ExcludeItem) (f : String) : Bool :=
  items.any fun it =>
    match it with
    | .sname s => s == f
    | .stuple _ => false

/-- The attribute dict serialized by the `NodeBase` register of
`_to_cypher`: `value.dict(exclude=exclude_set)` where
`exclude_set = {"label"} ∪ exclude_properties`. -/
def nodeAttrsSelected (n : PyNode) (excludeProps : List ExcludeItem) :
    List (String × PyValue) :=
  n.attrs.filter (fun kv => !(excludesField (.sname "label" :: excludeProps) kv.1))

/-! ### `_update_entry_transaction` (graph_db.py lines 134-167)

The transaction builds

* `key_substitutions[f"key_{index}"] = _to_cypher(getattr(entry, attribute))`
  — bound parameters, so the *Python string returned by `_to_cypher`*
  (quotes included) is the value Neo4j compares against, and
* `MERGE (entry:LABEL {attr: $key_i}) SET entry += <map>` where the map is
  `_to_cypher(entry, exclude_properties=(key,))` spliced as literal text,
  so its values arrive as `literalValue`s.
-/

/-- The `(attribute, parameter value)` pairs for the MERGE pattern.  The
parameter value is the output of `_to_cypher` on the attribute — note the
double serialization: for a string key this includes the surrounding
quote characters. -/
def keyParams (entry : PyNode) (key : List String) : List (String × String) :=
  key.map (fun attr => (attr, toCypher (getattrPy entry attr)))

/-- The property map written by `SET entry += ...`.  The exclude set is
`{"label"} ∪ {(key,)}` — the key tuple is wrapped in another tuple, so no
key attribute (and not even the default `"uuid"`) is actually excluded. -/
def updateSetMap (entry : PyNode) (key : List String) : List (String × PropValue) :=
  (nodeAttrsSelected entry [.stuple key]).map (fun kv => (kv.1, literalValue kv.2))

/-- MERGE matching: same label and every key attribute equal to its bound
parameter (a string value). -/
def nodeMatchesKey (node : DBNode) (lbl : String) (kps : List (String × String)) : Bool :=
  node.label == lbl && kps.all (fun kp => isPStr (lookupProp node.props kp.1) kp.2)

/-- Indices of the store nodes the MERGE pattern matches. -/
def matchingIdxs (store : Store) (lbl : String) (kps : List (String × String)) : List Nat :=
  (store.nodes.enum.filter (fun p => nodeMatchesKey p.2 lbl kps)).map Prod.fst

/-- Applies `SET += m` to every node whose index is listed. -/
def applySetAt (nodes : List DBNode) (idxs : List Nat) (m : List (String × PropValue)) :
    List DBNode :=
  nodes.enum.map (fun p => if idxs.contains p.1 then ⟨p.2.label, setProps p.2.props m⟩ else p.2)

/-- Embeds `_update_entry_transaction`: `MERGE` on (label, key parameters)
— if no node matches, a node carrying exactly the pattern's properties is
created — followed by `SET entry += map` on every matched (or the created)
node. -/
def updateEntryTransaction (store : Store) (entry : PyNode) (key : List String) : Store :=
  let kps := keyParams entry key
  let sm := updateSetMap entry key
  let idxs := matchingIdxs store entry.label kps
  if idxs.isEmpty then
    let createdProps := kps.map (fun kp => (kp.1, PropValue.pstr kp.2))
    { store with nodes := store.nodes ++ [⟨entry.label, setProps createdProps sm⟩] }
  else
    { store with nodes := applySetAt store.nodes idxs sm }

/-- Embeds `update_node` (graph_db.py lines 255-280): normalizes a lone
string key to a one-element tuple (we take the normalized `List String`
directly) and runs `_update_entry_transaction` in a write transaction. -/
def update_node (store : Store) (entry : PyNode) (key : List String) : Store :=
  updateEntryTransaction store entry key

/-! ### `create_relationship` (graph_db.py lines 662-684)

`MATCH (a:L1), (b:L2) WHERE a.uuid = '<str(e1.uuid)>' AND
b.uuid = '<str(e2.uuid)>' CREATE (a)-[:REL]->(b)` — the uuid is spliced
with plain `str(...)` (no `_to_cypher`), so the comparison value is the
raw uuid string; CREATE adds one relationship for every row of the
cartesian match, unconditionally. -/

/-- Python `str(...)` of an attribute value as used in the relationship
query (only string-like attributes reach this call in the source). -/
def pyRawStr : PyValue → String
  | .pyStr s => s
  | .pyUuid s => s
  | .pyInt n => toString n
  | .pyNone => "None"
  | .pyList _ => ""
  | .pyDict _ => ""

def uuidRaw (n : PyNode) : String := pyRawStr (getattrPy n "uuid")

/-- Indices of store nodes with the given label whose `uuid` property
equals the given raw string. -/
def matchingUuidIdxs (store : Store) (lbl : String) (u : String) : List Nat :=
  (store.nodes.enum.filter
    (fun p => p.2.label == lbl && isPStr (lookupProp p.2.props "uuid") u)).map Prod.fst

/-- All `(source, target, type)` rows of the cartesian match. -/
def pairAll (as1 bs : List Nat) (relType : String) : List (Nat × Nat × String) :=
  match as1 with
  | [] => []
  | i :: rest => bs.map (fun j => (i, j, relType)) ++ pairAll rest bs relType

/-- Embeds `create_relationship`: one new directed edge per matched row,
appended to the store's relationship list with no duplicate check. -/
def create_relationship (store : Store) (e1 e2 : PyNode) (relType : String) : Store :=
  let as1 := matchingUuidIdxs store e1.label (uuidRaw e1)
  let bs := matchingUuidIdxs store e2.label (uuidRaw e2)
  { store with rels := store.rels ++ pairAll as1 bs relType }

/-- Number of stored nodes with the given label whose property `k` is the
string `v` — "nodes with key K" in the claims. -/
def countNodesWith (store : Store) (lbl : String) (k v : String) : Nat :=
  (store.nodes.filter (fun nd => nd.label == lbl && isPStr (lookupProp nd.props k) v)).length

/-! ## Concrete nodes used as inputs

An `EntryNode` (data_model.py): fields `uuid`, `entry_id`,
`protein_entity_ids`, `publications` (plus `label`, which is carried
separately).  A `ProteinNode`: fields `uuid`, `id`, `name`, `entry_id`,
`sequence`, `annotations`, `cofactors`. -/

def entryEx : PyNode :=
  ⟨"ENTRY", [("uuid", .pyUuid "11111111-2222-3333-4444-555555555555"),
             ("entry_id", .pyStr "4HHB"),
             ("protein_entity_ids", .pyList [.pyStr "1"]),
             ("publications", .pyList [])]⟩

def protEx : PyNode :=
  ⟨"PROTEIN", [("uuid", .pyUuid "aaaaaaaa-bbbb-cccc-dddd-eeeeeeeeeeee"),
               ("id", .pyStr "1"),
               ("name", .pyStr "Hemoglobin subunit alpha"),
               ("entry_id", .pyStr "4HHB"),
               ("sequence", .pyStr "MVLSPADKTN"),
               ("annotations", .pyList [.pyStr "GO:0005344"]),
               ("cofactors", .pyList [])]⟩

/-- Claim C1: upsert is idempotent and converges — repeated
`update_node` calls with the same key are claimed to leave exactly one
node with that key.  The code violates this: the MERGE key parameter is
the `_to_cypher`-serialized string (with surrounding quote characters),
but `SET entry += ...` immediately rewrites the key property to the
unquoted literal value, so a second call never matches the first node and
creates a fresh one.  Starting from an empty store, one call leaves one
node with key K, a second call leaves two. -/
theorem C1_upsert_never_converges :
    countNodesWith (update_node emptyStore entryEx ["uuid"])
      "ENTRY" "uuid" "11111111-2222-3333-4444-555555555555" = 1 ∧
    countNodesWith (update_node (update_node emptyStore entryEx ["uuid"]) entryEx ["uuid"])
      "ENTRY" "uuid" "11111111-2222-3333-4444-555555555555" = 2 ∧
    ¬ countNodesWith (update_node (update_node emptyStore entryEx ["uuid"]) entryEx ["uuid"])
      "ENTRY" "uuid" "11111111-2222-3333-4444-555555555555" = 1 := by
  decide

/-- Claim C5: key attributes are claimed to be excluded from the
non-key-attribute overwrite (`SET entry += ...`).  The code passes
`exclude_properties=(key,)` — the key tuple wrapped in another tuple — so
the exclude set is `{"label", key_tuple}` and no key attribute is
excluded: the SET map written on every upsert contains the key
attributes themselves (here `uuid` for the default key, and both
`entry_id` and `id` for the composite protein key). -/
theorem C5_key_attrs_not_excluded_from_set :
    ((updateSetMap entryEx ["uuid"]).map Prod.fst).contains "uuid" = true ∧
    ((updateSetMap protEx ["entry_id", "id"]).map Prod.fst).contains "entry_id" = true ∧
    ((updateSetMap protEx ["entry_id", "id"]).map Prod.fst).contains "id" = true := by
  decide

theorem matchingUuidIdxs_nodes_eq (s1 s2 : Store) (h : s1.nodes = s2.nodes)
    (lbl u : String) : matchingUuidIdxs s1 lbl u = matchingUuidIdxs s2 lbl u := by
  unfold matchingUuidIdxs
  rw [h]

theorem create_relationship_eq (store : Store) (e1 e2 : PyNode) (relType : String)
    (i j : Nat)
    (h1 : matchingUuidIdxs store e1.label (uuidRaw e1) = [i])
    (h2 : matchingUuidIdxs store e2.label (uuidRaw e2) = [j]) :
    create_relationship store e1 e2 relType =
      ⟨store.nodes, store.rels ++ [(i, j, relType)]⟩ := by
  simp [create_relationship, h1, h2, pairAll]

/-- Claim C9: `create_relationship` is not idempotent — when each of the
two uuids matches exactly one stored node, two successive calls with the
same arguments append two (duplicate) directed edges from the first node
to the second, with no store-level duplicate suppression. -/
theorem C9_create_relationship_not_idempotent (store : Store) (e1 e2 : PyNode)
    (relType : String) (i j : Nat)
    (h1 : matchingUuidIdxs store e1.label (uuidRaw e1) = [i])
    (h2 : matchingUuidIdxs store e2.label (uuidRaw e2) = [j]) :
    (create_relationship (create_relationship store e1 e2 relType) e1 e2 relType).rels =
      store.rels ++ [(i, j, relType), (i, j, relType)] := by
  have e : create_relationship store e1 e2 relType =
      ⟨store.nodes, store.rels ++ [(i, j, relType)]⟩ :=
    create_relationship_eq store e1 e2 relType i j h1 h2
  have h1' : matchingUuidIdxs (⟨store.nodes, store.rels ++ [(i, j, relType)]⟩ : Store)
      e1.label (uuidRaw e1) = [i] := by
    rw [matchingUuidIdxs_nodes_eq ⟨store.nodes, store.rels ++ [(i, j, relType)]⟩ store rfl]
    exact h1
  have h2' : matchingUuidIdxs (⟨store.nodes, store.rels ++ [(i, j, relType)]⟩ : Store)
      e2.label (uuidRaw e2) = [j] := by
    rw [matchingUuidIdxs_nodes_eq ⟨store.nodes, store.rels ++ [(i, j, relType)]⟩ store rfl]
    exact h2
  rw [e, create_relationship_eq ⟨store.nodes, store.rels ++ [(i, j, relType)]⟩ e1 e2
    relType i j h1' h2']
  simp

/-- A two-node store holding an already-upserted entry and protein (their
stored `uuid` properties are the raw uuid strings, as `SET entry += ...`
leaves them). -/
def relStore : Store :=
  ⟨[⟨"ENTRY", [("uuid", .pstr "11111111-2222-3333-4444-555555555555")]⟩,
    ⟨"PROTEIN", [("uuid", .pstr "aaaaaaaa-bbbb-cccc-dddd-eeeeeeeeeeee")]⟩], []⟩

/-- Witness for C9 at a concrete two-node store: both hypotheses hold and
two `HAS_PROTEIN` edges result. -/
theorem C9_witness :
    matchingUuidIdxs relStore entryEx.label (uuidRaw entryEx) = [0] ∧
    matchingUuidIdxs relStore protEx.label (uuidRaw protEx) = [1] ∧
    (create_relationship (create_relationship relStore entryEx protEx "HAS_PROTEIN")
      entryEx protEx "HAS_PROTEIN").rels =
      relStore.rels ++ [(0, 1, "HAS_PROTEIN"), (0, 1, "HAS_PROTEIN")] :=
  ⟨by decide, by decide,
    C9_create_relationship_not_idempotent relStore entryEx protEx "HAS_PROTEIN" 0 1
      (by decide) (by decide)⟩

/-! ## The ingestion pipeline `form_kg` (download_kg.py lines 37-111)

`form_kg` walks the downloaded object graph and, per protein, runs five
dedup-guarded stages.  The per-run dedup sets hold *natural keys*
(scientific names, accessions, annotation ids, cofactor resource ids) —
strings in the source.  One `ProtInfo` bundles what the download layer
yields for one protein: the `ProteinInfoTuple`
`(prot, host_organisms, source_organisms, databases, annotation_nodes)`
together with the cofactor downloads
`(cofactor resource id, drug node, drugbank targets)`; the id list doubles
as `prot_node.cofactors`. -/

structure ProtInfo where
  prot : PyNode
  hos : List PyNode
  sos : List PyNode
  dbs : List PyNode
  annos : List PyNode
  cofs : List (String × PyNode × List PyNode)

/-- The five per-run dedup sets of `form_kg` (`added_host_organisms`,
`added_source_organisms`, `added_dbs`, `added_annotations`,
`added_drugs`). -/
structure Trackers where
  hoKeys : List String
  soKeys : List String
  dbKeys : List String
  annoKeys : List String
  drugKeys : List String

def emptyTrackers : Trackers := ⟨[], [], [], [], []⟩

/-- Reads a string-typed pydantic field (the natural keys used by the
dedup sets are all `str` fields in the source). -/
def getattrStr (n : PyNode) (attr : String) : String :=
  match (n.attrs.lookup attr) with
  | some (.pyStr s) => s
  | some (.pyUuid s) => s
  | _ => ""

/-- Host-organism stage: `if ho.scientific_name not in added_host_organisms:
update_node(ho, key="scientific_name"); create_relationship(prot, ho,
"HOST_ON"); added_host_organisms.add(...)`. -/
def ingestHos (st : Store) (prot : PyNode) (seen : List String) :
    List PyNode → Store × List String
  | [] => (st, seen)
  | ho :: rest =>
    let k := getattrStr ho "scientific_name"
    if seen.contains k then ingestHos st prot seen rest
    else
      ingestHos (create_relationship (update_node st ho ["scientific_name"]) prot ho "HOST_ON")
        prot (seen ++ [k]) rest

/-- Source-organism stage (key `scientific_name`, edge `SOURCE_FROM`). -/
def ingestSos (st : Store) (prot : PyNode) (seen : List String) :
    List PyNode → Store × List String
  | [] => (st, seen)
  | so :: rest =>
    let k := getattrStr so "scientific_name"
    if seen.contains k then ingestSos st prot seen rest
    else
      ingestSos
        (create_relationship (update_node st so ["scientific_name"]) prot so "SOURCE_FROM")
        prot (seen ++ [k]) rest

/-- Database stage (key `reference_database_accession`, edge `REFER_TO`). -/
def ingestDbs (st : Store) (prot : PyNode) (seen : List String) :
    List PyNode → Store × List String
  | [] => (st, seen)
  | db :: rest =>
    let k := getattrStr db "reference_database_accession"
    if seen.contains k then ingestDbs st prot seen rest
    else
      ingestDbs
        (create_relationship (update_node st db ["reference_database_accession"]) prot db
          "REFER_TO")
        prot (seen ++ [k]) rest

/-- Annotation stage (key `id`, edge `HAS_ANNOTATION`). -/
def ingestAnnos (st : Store) (prot : PyNode) (seen : List String) :
    List PyNode → Store × List String
  | [] => (st, seen)
  | an :: rest =>
    let k := getattrStr an "id"
    if seen.contains k then ingestAnnos st prot seen rest
    else
      ingestAnnos
        (create_relationship (update_node st an ["id"]) prot an "HAS_ANNOTATION")
        prot (seen ++ [k]) rest

/-- `for drug_tar in targets: update_node(drug_tar);
create_relationship(drug, drug_tar, "TARGET_TO")` — targets use the
default `uuid` key and are not dedup-guarded. -/
def ingestTargets (st : Store) (drug : PyNode) : List PyNode → Store
  | [] => st
  | t :: rest =>
    ingestTargets (create_relationship (update_node st t ["uuid"]) drug t "TARGET_TO") drug rest

/-- Drug stage body for the cofactors that survived the `exclude` filter:
`update_node(drug, key="id"); create_relationship(prot_node, drug,
"HAS_COFACTOR")`, then the targets loop. -/
def ingestDrugs (st : Store) (prot : PyNode) :
    List (String × PyNode × List PyNode) → Store
  | [] => st
  | (_, drug, targets) :: rest =>
    let st1 := update_node st drug ["id"]
    let st2 := create_relationship st1 prot drug "HAS_COFACTOR"
    ingestDrugs (ingestTargets st2 drug targets) prot rest

/-- Per-protein processing in `form_kg`: upsert the protein (composite key
`("entry_id", "id")`), link it to its entry, run the four dedup-guarded
stages, then the drug stage.  `download_cofactors(prot, exclude=added_drugs)`
drops every cofactor id already in the dedup set *before* anything is
upserted or related; afterwards `added_drugs.update(prot_node.cofactors)`
adds all of the protein's cofactor ids. -/
def ingestProt (st : Store) (tk : Trackers) (entry : PyNode) (pi : ProtInfo) :
    Store × Trackers :=
  let st1 := update_node st pi.prot ["entry_id", "id"]
  let st2 := create_relationship st1 entry pi.prot "HAS_PROTEIN"
  let r1 := ingestHos st2 pi.prot tk.hoKeys pi.hos
  let r2 := ingestSos r1.1 pi.prot tk.soKeys pi.sos
  let r3 := ingestDbs r2.1 pi.prot tk.dbKeys pi.dbs
  let r4 := ingestAnnos r3.1 pi.prot tk.annoKeys pi.annos
  let todo := pi.cofs.filter (fun c => !(tk.drugKeys.contains c.1))
  let st3 := ingestDrugs r4.1 pi.prot todo
  (st3, ⟨r1.2, r2.2, r3.2, r4.2, tk.drugKeys ++ pi.cofs.map Prod.fst⟩)

def ingestProts (st : Store) (tk : Trackers) (entry : PyNode) :
    List ProtInfo → Store × Trackers
  | [] => (st, tk)
  | pi :: rest =>
    let r := ingestProt st tk entry pi
    ingestProts r.1 r.2 entry rest

/-- One iteration of the outer `async for entry in ...` loop:
`update_node(entry)` (default `uuid` key) then every protein of the
entry. -/
def ingestEntry (st : Store) (tk : Trackers) (entry : PyNode) (pis : List ProtInfo) :
    Store × Trackers :=
  ingestProts (update_node st entry ["uuid"]) tk entry pis

def ingestEntries (st : Store) (tk : Trackers) :
    List (PyNode × List ProtInfo) → Store × Trackers
  | [] => (st, tk)
  | (entry, pis) :: rest =>
    let r := ingestEntry st tk entry pis
    ingestEntries r.1 r.2 rest

/-- Embeds `form_kg`: ingest the downloaded entries into an empty store
with fresh dedup sets. -/
def form_kg (inputs : List (PyNode × List ProtInfo)) : Store × Trackers :=
  ingestEntries emptyStore emptyTrackers inputs

/-- Number of relationships of the given type pointing at the node with
index `t`. -/
def countIncoming (store : Store) (t : Nat) (relType : String) : Nat :=
  (store.rels.filter (fun r => r.2.1 == t && r.2.2 == relType)).length

/-! ### Two parents sharing one secondary entity (the C3 scenario)

One entry with two proteins; both proteins reference the same drug
cofactor (resource id `NAD`). -/

def drugEx : PyNode :=
  ⟨"DRUG", [("uuid", .pyUuid "dddddddd-1111-2222-3333-444444444444"),
            ("id", .pyStr "NAD"), ("name", .pyStr "NADH"),
            ("drug_groups", .pyList [.pyStr "approved"]),
            ("drugbank_id", .pyStr "DB00157"),
            ("drugbank_name", .pyStr "NADH"),
            ("synonyms", .pyList [])]⟩

def prot1Ex : PyNode :=
  ⟨"PROTEIN", [("uuid", .pyUuid "aaaaaaaa-0000-0000-0000-000000000001"),
               ("id", .pyStr "1"), ("name", .pyStr "protein one"),
               ("entry_id", .pyStr "4HHB"), ("sequence", .pyStr "MVLS"),
               ("annotations", .pyList []),
               ("cofactors", .pyList [.pyStr "NAD"])]⟩

def prot2Ex : PyNode :=
  ⟨"PROTEIN", [("uuid", .pyUuid "aaaaaaaa-0000-0000-0000-000000000002"),
               ("id", .pyStr "2"), ("name", .pyStr "protein two"),
               ("entry_id", .pyStr "4HHB"), ("sequence", .pyStr "GGGG"),
               ("annotations", .pyList []),
               ("cofactors", .pyList [.pyStr "NAD"])]⟩

def twoParentInput : List (PyNode × List ProtInfo) :=
  [(entryEx, [⟨prot1Ex, [], [], [], [], [("NAD", drugEx, [])]⟩,
              ⟨prot2Ex, [], [], [], [], [("NAD", drugEx, [])]⟩])]

/-- The store produced by ingesting the two-parent input.  Node indices:
0 = entry, 1 = first protein, 2 = drug, 3 = second protein. -/
def c3Store : Store := (form_kg twoParentInput).1

/-- Claim C3 counterexample: after ingesting two parents whose children
both reference the same drug cofactor, the drug exists exactly once (node
index 2) but has exactly ONE incoming relationship, not the two the claim
asserts — `download_cofactors(prot, exclude=added_drugs)` removes the
already-seen cofactor id before anything is upserted *or related*, so the
second parent's `HAS_COFACTOR` edge is never created. -/
theorem C3_counterexample_one_incoming_edge :
    countNodesWith c3Store "DRUG" "id" "NAD" = 1 ∧
    isPStr (lookupProp (c3Store.nodes.getD 2 ⟨"", []⟩).props "id") "NAD" = true ∧
    countIncoming c3Store 2 "HAS_COFACTOR" = 1 ∧
    ¬ countIncoming c3Store 2 "HAS_COFACTOR" = 2 := by
  decide

/-- Claim C3 (amended): the shared secondary entity exists exactly once
and has exactly one incoming `HAS_COFACTOR` relationship — from the first
parent's child (node index 1) — because the dedup set suppresses both the
upsert and the relationship creation for every later parent whose child
references the same cofactor id. -/
theorem C3_amended_dedup_skips_second_edge :
    countNodesWith c3Store "DRUG" "id" "NAD" = 1 ∧
    c3Store.rels.filter (fun r => r.2.2 == "HAS_COFACTOR") = [(1, 2, "HAS_COFACTOR")] ∧
    (c3Store.nodes.getD 1 ⟨"", []⟩).label = "PROTEIN" ∧
    isPStr (lookupProp (c3Store.nodes.getD 1 ⟨"", []⟩).props "id") "1" = true := by
  decide

/-! ## Claim C4: the value serializer -/

/-- Claim C4 counterexample: `_to_cypher` is NOT injective.  The `str`
register deletes embedded double quotes before wrapping, so the two
distinct strings `a"b` and `ab` render to the same literal; and the `int`
register re-dispatches on `str(value)`, so the integer `5` renders to the
same literal as the string `"5"`. -/
theorem C4_counterexample_collisions :
    toCypher (.pyStr "a\"b") = toCypher (.pyStr "ab") ∧
    ("a\"b" : String) ≠ "ab" ∧
    toCypher (.pyInt 5) = toCypher (.pyStr "5") ∧
    PyValue.pyInt 5 ≠ PyValue.pyStr "5" := by
  refine ⟨by decide, by decide, rfl, ?_⟩
  intro h
  exact PyValue.noConfusion h

/-- Claim C4 (amended): the serializer is a deterministic function of the
value and is injective — with the original recoverable by stripping the
delimiters — on strings free of the double-quote character; but it is not
lossless in general: embedded double quotes are deleted (so strings
differing only in quotes collide) and an integer serializes to exactly
the literal of its decimal string. -/
theorem C4_amended_injective_on_quote_free :
    (∀ s t : String, NoQuote s → NoQuote t →
      toCypher (.pyStr s) = toCypher (.pyStr t) → s = t) ∧
    (∀ s : String, NoQuote s → stripDelimiters (toCypher (.pyStr s)) = s) ∧
    (∀ n : Int, toCypher (.pyInt n) = toCypher (.pyStr (toString n))) ∧
    toCypher (.pyStr "a\"b") = toCypher (.pyStr "ab") :=
  ⟨fun _ _ hs ht h => toCypher_str_injOn hs ht h,
   fun _ hs => stripDelimiters_toCypher hs,
   fun _ => rfl,
   by decide⟩

/-- Witness for the amended C4 at the quote-free string `4HHB`. -/
theorem C4_witness :
    NoQuote "4HHB" ∧ stripDelimiters (toCypher (.pyStr "4HHB")) = "4HHB" :=
  ⟨by decide, C4_amended_injective_on_quote_free.2.1 "4HHB" (by decide)⟩

/-! ## Claim C2: batched dispatch in `__download_entries`
(download_manager.py lines 148-175)

The loop body is

    async for entry_id in entry_ids:
        if len(entry_tasks) < self._ENTRY_TASK_BATCH_SIZE:
            entry_tasks.append(self.__do_download(get_entry(entry_id)))
            continue
        async for entry_task in self.__await_concurrently(entry_tasks):
            yield entry_task.result()
        entry_tasks = []

A fetch is dispatched at `append` time.  When the batch is already full
the current `entry_id` takes the drain branch: the pending batch is
awaited and the task list reset — but `entry_id` itself is never
appended, so no fetch is ever dispatched for it. -/

def entryTaskBatchSize : Nat := 100

/-- The identifiers for which `__download_entries` dispatches a fetch, in
dispatch order: `dispatchLoop batchSize remaining-ids current-batch`. -/
def dispatchLoop {α : Type} (batchSize : Nat) : List α → List α → List α
  | [], _batch => []
  | eid :: rest, batch =>
    if batch.length < batchSize then eid :: dispatchLoop batchSize rest (batch ++ [eid])
    else dispatchLoop batchSize rest []

/-- Identifiers fetched by `__download_entries` for a given id stream
(batch size 100, starting from an empty task list).  Every dispatched
batch is eventually awaited (at the drain branch or the final drain), so
this is also the multiset of results the generator yields. -/
def downloadEntriesDispatched {α : Type} (ids : List α) : List α :=
  dispatchLoop entryTaskBatchSize ids []

set_option maxRecDepth 4000 in
/-- Claim C2: `__download_entries` is claimed to dispatch exactly one
fetch per identifier with none skipped.  The code violates this: on a
stream of 101 identifiers, only the first 100 are dispatched — the 101st
arrives when the batch is full, triggers the drain, and is itself never
dispatched. -/
theorem C2_identifier_skipped :
    downloadEntriesDispatched (List.range 101) = List.range 100 ∧
    100 ∈ List.range 101 ∧
    100 ∉ downloadEntriesDispatched (List.range 101) := by
  decide

/-! ## Claims C6 and C7: retry policy and stream error handling

Exception taxonomy of the download layer, as classified by `_RETRY`
(download_tasks.py lines 60-74) and `__await_concurrently`
(download_manager.py lines 97-133). -/

inductive DlError where
  | timeoutErr
  | connectorErr
  | serverDisconnectedErr
  | clientResponseErr (status : Nat)
  | otherErr
deriving DecidableEq

/-- The retry predicate of `_RETRY`: `asyncio.TimeoutError`,
`aiohttp.ClientConnectorError` and `aiohttp.ServerDisconnectedError` are
retried, as is any `aiohttp.ClientResponseError` whose status is not 404;
nothing else is. -/
def retryableError : DlError → Bool
  | .timeoutErr => true
  | .connectorErr => true
  | .serverDisconnectedErr => true
  | .clientResponseErr status => status != 404
  | .otherErr => false

/-- The result of one attempt of a wrapped remote call. -/
inductive FetchOutcome (α : Type) where
  | ok (v : α)
  | err (e : DlError)
deriving DecidableEq

/-- `stop_after_attempt(15)`: attempts are numbered from 1; after the
15th attempt no further retry happens.  `retryAttempt f n fuel` runs
attempt `n` with `fuel` retries still allowed (`fuel = 15 - n`): a
success returns with its attempt number; a retryable failure with fuel
left retries; anything else surfaces the error at that attempt. -/
def retryAttempt {α : Type} (f : Nat → FetchOutcome α) : Nat → Nat → FetchOutcome α × Nat
  | n, 0 => (f n, n)
  | n, fuel + 1 =>
    match f n with
    | .ok v => (.ok v, n)
    | .err e => if retryableError e then retryAttempt f (n + 1) fuel else (.err e, n)

/-- Embeds a call wrapped by `_RETRY` where attempt `n` produces
`f n`: up to 15 attempts. -/
def runRetry {α : Type} (f : Nat → FetchOutcome α) : FetchOutcome α × Nat :=
  retryAttempt f 1 14

/-- `wait_exponential(multiplier=1, min=1, max=30)`: the wait after
attempt `n` is `multiplier * 2^n` clamped into `[min, max]` seconds. -/
def waitExp (n : Nat) : Nat := max 1 (min (2 ^ n) 30)

/-- A call whose first four attempts fail with HTTP 503 and whose fifth
attempt succeeds. -/
def fiveAttemptCall : Nat → FetchOutcome Nat :=
  fun n => if n ≤ 4 then .err (.clientResponseErr 503) else .ok 7

theorem retryAttempt_le {α : Type} (f : Nat → FetchOutcome α) :
    ∀ fuel n, (retryAttempt f n fuel).2 ≤ n + fuel := by
  intro fuel
  induction fuel with
  | zero => intro n; simp [retryAttempt]
  | succ fuel ih =>
    intro n
    unfold retryAttempt
    cases f n with
    | ok v => simp
    | err e =>
      by_cases hr : retryableError e = true
      · simp only [hr, if_true]
        have := ih (n + 1)
        omega
      · simp only [hr, if_false]
        simp

/-- Claim C7: under `_RETRY`, a call failing four times with a retryable
503 and succeeding on the fifth attempt completes in exactly 5 attempts;
transient failures (timeouts, connection resets, server disconnections /
5xx client-response errors) are retryable while 404 is not; no call makes
more than 15 attempts; and the backoff waits start at the 1-second floor,
double from one retry to the next, and are capped at 30 seconds. -/
theorem C7_retry_policy :
    runRetry fiveAttemptCall = (.ok 7, 5) ∧
    (∀ f : Nat → FetchOutcome Nat, (runRetry f).2 ≤ 15) ∧
    retryableError .timeoutErr = true ∧
    retryableError .connectorErr = true ∧
    retryableError .serverDisconnectedErr = true ∧
    (∀ status : Nat, status ≠ 404 → retryableError (.clientResponseErr status) = true) ∧
    (∀ n : Nat, 1 ≤ n → 1 ≤ waitExp n ∧ waitExp n ≤ 30 ∧
      waitExp (n + 1) = min (2 * waitExp n) 30) := by
  refine ⟨by decide, ?_, rfl, rfl, rfl, ?_, ?_⟩
  · intro f
    exact retryAttempt_le f 14 1
  · intro status h
    simp [retryableError, h]
  · intro n hn
    have h2 : 2 ≤ 2 ^ n := by
      calc 2 = 2 ^ 1 := by norm_num
      _ ≤ 2 ^ n := Nat.pow_le_pow_right (by norm_num) hn
    have hs : 2 ^ (n + 1) = 2 * 2 ^ n := by
      rw [pow_succ]
      omega
    unfold waitExp
    omega

/-- Witness for C7 at `status = 503` and `n = 1`. -/
theorem C7_witness :
    retryableError (.clientResponseErr 503) = true ∧
    (1 ≤ waitExp 1 ∧ waitExp 1 ≤ 30 ∧ waitExp 2 = min (2 * waitExp 1) 30) :=
  ⟨C7_retry_policy.2.2.2.2.2.1 503 (by decide),
   C7_retry_policy.2.2.2.2.2.2 1 (by decide)⟩

/-! ### `__await_concurrently` and the result streams (C6)

`__await_concurrently` walks the finished tasks in completion order; a
task whose exception is an `aiohttp.ClientResponseError` with status 404
is logged as a warning and skipped (`continue`); every other task is
yielded.  The enclosing generators then call `task.result()`, which
re-raises the task's exception and thereby aborts the stream. -/

/-- Whether `__await_concurrently` skips a finished task: it failed, the
exception is a `ClientResponseError`, and its status is 404. -/
def skipNotFound : DlError → Bool
  | .clientResponseErr 404 => true
  | _ => false

/-- The tasks `__await_concurrently` yields, in completion order: all of
them except the 404 failures. -/
def awaitConcurrently {α : Type} (done : List (FetchOutcome α)) : List (FetchOutcome α) :=
  done.filter (fun o =>
    match o with
    | .ok _ => true
    | .err e => !skipNotFound e)

/-- The enclosing `async for ... yield task.result()` loop: successes are
yielded in order; the first failure that reaches the loop re-raises and
aborts the stream. -/
def collectResults {α : Type} : List (FetchOutcome α) → Except DlError (List α)
  | [] => .ok []
  | .ok v :: rest => (collectResults rest).map (fun vs => v :: vs)
  | .err e :: _rest => .error e

/-- One batch of the entry / entity / cofactor streams: completion-order
outcomes filtered by `__await_concurrently`, then collected by the
generator. -/
def streamResults {α : Type} (done : List (FetchOutcome α)) : Except DlError (List α) :=
  collectResults (awaitConcurrently done)

/-- The successful values among the outcomes, in completion order. -/
def successValues {α : Type} (done : List (FetchOutcome α)) : List α :=
  done.filterMap (fun o =>
    match o with
    | .ok v => some v
    | .err _ => none)

/-- Whether a finished task would survive `__await_concurrently` without
aborting the caller: either a success, or a 404 failure (which the filter
drops). -/
def noHardFailure {α : Type} (o : FetchOutcome α) : Bool :=
  match o with
  | .ok _ => true
  | .err e => skipNotFound e

theorem awaitConcurrently_all_ok {α : Type} (done : List (FetchOutcome α))
    (h : ∀ o ∈ done, noHardFailure o = true) :
    awaitConcurrently done = (successValues done).map FetchOutcome.ok := by
  induction done with
  | nil => rfl
  | cons o rest ih =>
    have hrest : ∀ o ∈ rest, noHardFailure o = true :=
      fun o' ho' => h o' (List.mem_cons_of_mem o ho')
    have ho : noHardFailure o = true := h o (List.mem_cons_self _ _)
    cases o with
    | ok v =>
      simp only [awaitConcurrently, successValues, List.filter_cons, List.filterMap_cons]
        at ih ⊢
      simp [ih hrest]
    | err e =>
      have he : skipNotFound e = true := ho
      simp only [awaitConcurrently, successValues, List.filter_cons, List.filterMap_cons]
        at ih ⊢
      simp [he, ih hrest]

theorem collectResults_map_ok {α : Type} (vs : List α) :
    collectResults (vs.map FetchOutcome.ok) = .ok vs := by
  induction vs with
  | nil => rfl
  | cons v rest ih => simp [collectResults, ih, Except.map]

theorem streamResults_all_not_found {α : Type} (done : List (FetchOutcome α))
    (h : ∀ o ∈ done, noHardFailure o = true) :
    streamResults done = .ok (successValues done) := by
  unfold streamResults
  rw [awaitConcurrently_all_ok done h, collectResults_map_ok]

theorem collectResults_err_after_oks {α : Type} (e : DlError)
    (tail : List (FetchOutcome α)) :
    ∀ l : List (FetchOutcome α), (∀ o ∈ l, ∃ v, o = FetchOutcome.ok v) →
      collectResults (l ++ .err e :: tail) = .error e := by
  intro l
  induction l with
  | nil => intro _; rfl
  | cons o rest ih =>
    intro h
    obtain ⟨v, hv⟩ := h o (List.mem_cons_self _ _)
    subst hv
    have hrest : ∀ o ∈ rest, ∃ v, o = FetchOutcome.ok v :=
      fun o' ho' => h o' (List.mem_cons_of_mem _ ho')
    simp [collectResults, ih hrest, Except.map]

theorem streamResults_aborts {α : Type} (pre : List (FetchOutcome α)) (e : DlError)
    (post : List (FetchOutcome α))
    (h : ∀ o ∈ pre, noHardFailure o = true)
    (he : skipNotFound e = false) :
    streamResults (pre ++ .err e :: post) = .error e := by
  unfold streamResults
  have hsplit : awaitConcurrently (pre ++ .err e :: post) =
      awaitConcurrently pre ++ .err e :: awaitConcurrently post := by
    simp [awaitConcurrently, List.filter_append, List.filter_cons, he]
  rw [hsplit, awaitConcurrently_all_ok pre h]
  exact collectResults_err_after_oks e (awaitConcurrently post)
    ((successValues pre).map FetchOutcome.ok) (by
      intro o ho
      obtain ⟨v, _, hv⟩ := List.mem_map.mp ho
      exact ⟨v, hv.symm⟩)

/-- Claim C6: a 404 failure is never retried (`_RETRY` classifies it
non-retryable), is dropped from the result stream as a warning-level skip
without aborting the batch (if every failure in a batch is a 404 the
stream yields exactly the successes, in completion order), and any other
failure that reaches the stream aborts it by re-raising. -/
theorem C6_not_found_skipped_others_abort :
    retryableError (.clientResponseErr 404) = false ∧
    skipNotFound (.clientResponseErr 404) = true ∧
    (∀ done : List (FetchOutcome Nat),
      (∀ o ∈ done, noHardFailure o = true) →
      streamResults done = .ok (successValues done)) ∧
    (∀ (pre : List (FetchOutcome Nat)) (e : DlError) (post : List (FetchOutcome Nat)),
      (∀ o ∈ pre, noHardFailure o = true) →
      skipNotFound e = false →
      streamResults (pre ++ .err e :: post) = .error e) :=
  ⟨rfl, rfl, fun done h => streamResults_all_not_found done h,
   fun pre e post h he => streamResults_aborts pre e post h he⟩

/-- Witness for C6: a batch with one success, one 404 failure and another
success yields both successes; a batch with a 500 failure after the first
success aborts with that error. -/
theorem C6_witness :
    streamResults [.ok 1, .err (.clientResponseErr 404), .ok 2] = .ok [1, 2] ∧
    streamResults ([.ok 1] ++ .err (.clientResponseErr 500) :: [.ok 2]) =
      .error (.clientResponseErr 500) :=
  ⟨C6_not_found_skipped_others_abort.2.2.1 [.ok 1, .err (.clientResponseErr 404), .ok 2]
      (by decide),
   C6_not_found_skipped_others_abort.2.2.2 [.ok 1] (.clientResponseErr 500) [.ok 2]
      (by decide) (by decide)⟩

/-! ## Claim C10: `get_path` (graph_db.py lines 619-646)

The query is

    MATCH (a {uuid: "<start>"}), (b {uuid: "<end>"}),
          p = shortestPath((a)-[*]-(b))
    WITH p WHERE length(p) < max_length RETURN p

`(a)-[*]-(b)` is an undirected variable-length pattern of at least one
hop, so for distinct endpoints `shortestPath` produces a minimum-hop
walk between them (if the endpoints are connected), and the `WHERE`
filter keeps it only when its hop count is *strictly below* `max_length`.
We model the graph as an undirected edge list over node ids and embed the
query as: the first (minimum) hop count `n` with `1 ≤ n < max_length`
admitting a walk from `a` to `b`, returning such a walk's node sequence,
or the empty sequence if there is none. -/

structure SGraph where
  edges : List (Nat × Nat)

/-- Undirected adjacency: either orientation of the edge is present. -/
def adjB (g : SGraph) (x y : Nat) : Bool :=
  decide ((x, y) ∈ g.edges ∨ (y, x) ∈ g.edges)

/-- All neighbors of `x` (with multiplicity, which is harmless here). -/
def neighbors (g : SGraph) (x : Nat) : List Nat :=
  (g.edges.filter (fun e => decide (e.1 = x))).map Prod.snd ++
    (g.edges.filter (fun e => decide (e.2 = x))).map Prod.fst

/-- `chainAdj g x l`: each consecutive pair along `x :: l` is adjacent. -/
def chainAdj (g : SGraph) : Nat → List Nat → Bool
  | _, [] => true
  | x, y :: rest => adjB g x y && chainAdj g y rest

/-- All walks with exactly `n` edges starting at `a` (node sequences of
length `n + 1`). -/
def walksLen (g : SGraph) : Nat → Nat → List (List Nat)
  | 0, a => [[a]]
  | n + 1, a =>
    (((neighbors g a).map (fun x => walksLen g n x)).flatten).map (fun w => a :: w)

/-- All walks with exactly `n` edges from `a` to `b`. -/
def walksTo (g : SGraph) (a b n : Nat) : List (List Nat) :=
  (walksLen g n a).filter (fun w => w.getLast? = some b)

/-- Scans candidate hop counts in order and returns a walk at the first
count that admits one. -/
def findPath (g : SGraph) (a b : Nat) : List Nat → Option (List Nat)
  | [] => none
  | n :: rest =>
    match (walksTo g a b n).head? with
    | some w => some w
    | none => findPath g a b rest

/-- Embeds `get_path`: the node sequence of a minimum-hop walk between
`start` and `end` whose hop count lies in `[1, max_length)`, or the empty
sequence when no such walk exists (path absent, or shortest path not
within the bound). -/
def get_path (g : SGraph) (a b : Nat) (maxLength : Nat) : List Nat :=
  (findPath g a b (List.range' 1 (maxLength - 1))).getD []

/-- A walk from `a` to `b`: nonempty, starts at `a`, consecutive nodes
adjacent, ends at `b`. -/
def IsWalkFromTo (g : SGraph) (a b : Nat) (w : List Nat) : Prop :=
  ∃ t, w = a :: t ∧ chainAdj g a t = true ∧ w.getLast? = some b

/-- Hop count of a node sequence. -/
def hops (w : List Nat) : Nat := w.length - 1

theorem mem_neighbors (g : SGraph) (x y : Nat) :
    y ∈ neighbors g x ↔ adjB g x y = true := by
  unfold neighbors adjB
  simp only [List.mem_append, List.mem_map, List.mem_filter, decide_eq_true_eq]
  constructor
  · rintro (⟨⟨e1, e2⟩, ⟨hmem, h1⟩, h2⟩ | ⟨⟨e1, e2⟩, ⟨hmem, h2⟩, h1⟩)
    · left
      simp only at h1 h2
      rw [← h1, ← h2]
      exact hmem
    · right
      simp only at h1 h2
      rw [← h1, ← h2]
      exact hmem
  · rintro (h | h)
    · exact Or.inl ⟨(x, y), ⟨h, rfl⟩, rfl⟩
    · exact Or.inr ⟨(y, x), ⟨h, rfl⟩, rfl⟩

theorem mem_walksLen (g : SGraph) :
    ∀ (n a : Nat) (w : List Nat),
      w ∈ walksLen g n a ↔
        w.length = n + 1 ∧ ∃ t, w = a :: t ∧ chainAdj g a t = true := by
  intro n
  induction n with
  | zero =>
    intro a w
    simp only [walksLen, List.mem_singleton]
    constructor
    · rintro rfl
      exact ⟨rfl, [], rfl, rfl⟩
    · rintro ⟨hlen, t, rfl, _⟩
      have ht : t = [] := by
        have h0 : t.length = 0 := by
          simp only [List.length_cons] at hlen
          omega
        exact List.eq_nil_of_length_eq_zero h0
      rw [ht]
  | succ n ih =>
    intro a w
    constructor
    · intro hw
      simp only [walksLen, List.mem_map, List.mem_flatten] at hw
      obtain ⟨w', ⟨l, hl, hw'l⟩, rfl⟩ := hw
      obtain ⟨x, hx, hlx⟩ := hl
      rw [← hlx] at hw'l
      obtain ⟨hlen, t', ht', hchain⟩ := (ih x w').mp hw'l
      refine ⟨by simp [List.length_cons, hlen], w', rfl, ?_⟩
      rw [ht']
      simp only [chainAdj, Bool.and_eq_true]
      exact ⟨(mem_neighbors g a x).mp hx, hchain⟩
    · rintro ⟨hlen, t, rfl, hchain⟩
      cases t with
      | nil => simp at hlen
      | cons x t' =>
        simp only [chainAdj, Bool.and_eq_true] at hchain
        obtain ⟨hadj, hchain'⟩ := hchain
        simp only [walksLen, List.mem_map, List.mem_flatten]
        refine ⟨x :: t', ⟨walksLen g n x, ?_, ?_⟩, rfl⟩
        · exact ⟨x, (mem_neighbors g a x).mpr hadj, rfl⟩
        · refine (ih x (x :: t')).mpr ⟨?_, t', rfl, hchain'⟩
          simp only [List.length_cons] at hlen ⊢
          omega

theorem mem_walksTo (g : SGraph) (a b n : Nat) (w : List Nat) :
    w ∈ walksTo g a b n ↔ w.length = n + 1 ∧ IsWalkFromTo g a b w := by
  unfold walksTo IsWalkFromTo
  rw [List.mem_filter]
  rw [mem_walksLen]
  constructor
  · rintro ⟨⟨hlen, t, rfl, hchain⟩, hlast⟩
    simp only [decide_eq_true_eq] at hlast
    exact ⟨hlen, t, rfl, hchain, hlast⟩
  · rintro ⟨hlen, t, rfl, hchain, hlast⟩
    exact ⟨⟨hlen, t, rfl, hchain⟩, by simp [hlast]⟩

theorem findPath_none (g : SGraph) (a b : Nat) :
    ∀ l : List Nat, findPath g a b l = none → ∀ n ∈ l, walksTo g a b n = [] := by
  intro l
  induction l with
  | nil => intro _ n hn; cases hn
  | cons m rest ih =>
    intro h n hn
    unfold findPath at h
    cases hh : (walksTo g a b m).head? with
    | some w => rw [hh] at h; cases h
    | none =>
      rw [hh] at h
      rcases List.mem_cons.mp hn with rfl | hn'
      · exact List.head?_eq_none_iff.mp hh
      · exact ih h n hn'

theorem findPath_some_range (g : SGraph) (a b : Nat) (w : List Nat) :
    ∀ (k s : Nat), findPath g a b (List.range' s k) = some w →
      ∃ n, s ≤ n ∧ n < s + k ∧ w ∈ walksTo g a b n ∧
        ∀ m, s ≤ m → m < n → walksTo g a b m = [] := by
  intro k
  induction k with
  | zero => intro s h; cases h
  | succ k ih =>
    intro s h
    have hr : List.range' s (k + 1) = s :: List.range' (s + 1) k := rfl
    rw [hr] at h
    unfold findPath at h
    cases hh : (walksTo g a b s).head? with
    | some w0 =>
      rw [hh] at h
      cases h
      refine ⟨s, le_refl s, by omega, ?_, ?_⟩
      · cases hlist : walksTo g a b s with
        | nil => rw [hlist] at hh; cases hh
        | cons w1 rest =>
          rw [hlist] at hh
          simp only [List.head?_cons, Option.some.injEq] at hh
          rw [← hh]
          exact List.mem_cons_self _ _
      · intro m hm1 hm2
        omega
    | none =>
      rw [hh] at h
      obtain ⟨n, hn1, hn2, hnw, hpre⟩ := ih (s + 1) h
      refine ⟨n, by omega, by omega, hnw, ?_⟩
      intro m hm1 hm2
      rcases Nat.eq_or_lt_of_le hm1 with rfl | hlt
      · exact List.head?_eq_none_iff.mp hh
      · exact hpre m hlt hm2

/-- Claim C10: `get_path(start, end, maxLength)` returns the node
sequence of a shortest walk of strictly positive hop count when that
minimum hop count is within the (exclusive) bound, and the empty sequence
when no positive-length walk within the bound exists; in particular, on
the 2-hop graph a-m-b, `maxLength = 3` returns the 3-node sequence and
`maxLength = 1` returns the empty sequence.  (Stated for distinct
endpoints; Neo4j's `shortestPath` does not accept identical endpoints.) -/
theorem C10_get_path_shortest_within_bound :
    (∀ (g : SGraph) (a b maxLength : Nat), a ≠ b →
      (∀ w, get_path g a b maxLength = w → w ≠ [] →
        IsWalkFromTo g a b w ∧ 1 ≤ hops w ∧ hops w < maxLength ∧
        ∀ w', IsWalkFromTo g a b w' → 1 ≤ hops w' → hops w ≤ hops w') ∧
      (get_path g a b maxLength = [] →
        ¬ ∃ w', IsWalkFromTo g a b w' ∧ 1 ≤ hops w' ∧ hops w' < maxLength)) ∧
    get_path ⟨[(0, 1), (1, 2)]⟩ 0 2 3 = [0, 1, 2] ∧
    get_path ⟨[(0, 1), (1, 2)]⟩ 0 2 1 = [] := by
  refine ⟨?_, by decide, by decide⟩
  intro g a b L hab
  constructor
  · intro w hw hne
    unfold get_path at hw
    cases hfp : findPath g a b (List.range' 1 (L - 1)) with
    | none =>
      rw [hfp] at hw
      simp only [Option.getD_none] at hw
      exact absurd hw.symm hne
    | some w0 =>
      rw [hfp] at hw
      simp only [Option.getD_some] at hw
      subst hw
      obtain ⟨n, hn1, hn2, hnw, hpre⟩ := findPath_some_range g a b w0 (L - 1) 1 hfp
      obtain ⟨hlen, hwalk⟩ := (mem_walksTo g a b n w0).mp hnw
      have hh : hops w0 = n := by
        unfold hops
        omega
      refine ⟨hwalk, by omega, by omega, ?_⟩
      intro w' hw' hpos
      have hlen' : w'.length = hops w' + 1 := by
        obtain ⟨t, ht, -, -⟩ := hw'
        rw [ht]
        simp [hops]
      have hmem' : w' ∈ walksTo g a b (hops w') :=
        (mem_walksTo g a b (hops w') w').mpr ⟨hlen', hw'⟩
      by_contra hcon
      push_neg at hcon
      have hempty' : walksTo g a b (hops w') = [] := hpre (hops w') hpos (by omega)
      rw [hempty'] at hmem'
      cases hmem'
  · intro hempty
    rintro ⟨w', hw', hpos, hlt⟩
    unfold get_path at hempty
    cases hfp : findPath g a b (List.range' 1 (L - 1)) with
    | some w0 =>
      rw [hfp] at hempty
      simp only [Option.getD_some] at hempty
      obtain ⟨n, -, -, hnw, -⟩ := findPath_some_range g a b w0 (L - 1) 1 hfp
      obtain ⟨hlen, -⟩ := (mem_walksTo g a b n w0).mp hnw
      rw [hempty] at hlen
      simp at hlen
    | none =>
      have hall := findPath_none g a b _ hfp
      have hlen' : w'.length = hops w' + 1 := by
        obtain ⟨t, ht, -, -⟩ := hw'
        rw [ht]
        simp [hops]
      have hmem' : w' ∈ walksTo g a b (hops w') :=
        (mem_walksTo g a b (hops w') w').mpr ⟨hlen', hw'⟩
      have hrange : hops w' ∈ List.range' 1 (L - 1) :=
        List.mem_range'_1.mpr ⟨hpos, by omega⟩
      rw [hall (hops w') hrange] at hmem'
      cases hmem'

/-- Witness for C10: on the 2-hop graph, the returned sequence
`[0, 1, 2]` is a positive-length walk within the bound 3 and is
minimum-hop among all positive-length walks. -/
theorem C10_witness :
    IsWalkFromTo ⟨[(0, 1), (1, 2)]⟩ 0 2 [0, 1, 2] ∧ 1 ≤ hops [0, 1, 2] ∧
      hops [0, 1, 2] < 3 ∧
      ∀ w', IsWalkFromTo ⟨[(0, 1), (1, 2)]⟩ 0 2 w' → 1 ≤ hops w' →
        hops [0, 1, 2] ≤ hops w' :=
  (C10_get_path_shortest_within_bound.1 ⟨[(0, 1), (1, 2)]⟩ 0 2 3 (by decide)).1
    [0, 1, 2] (by decide) (by decide)

/-! ## Claim C8: the download gate (download_manager.py lines 42-95)

`__do_download` wraps each download coroutine as

    async with self.__download_semaphore:          # max_concurrent tokens
        while time.time() - self.__last_download_time < self.__min_request_period:
            await asyncio.sleep(...)
        self.__last_download_time = time.time()    # no await in between
        return await download_coro

We model this as a small-step transition system over cooperative tasks.
A task holds a semaphore token from `acquire` until `finish` (the
`async with` releases on success and on failure alike).  Between the
final (false) evaluation of the `while` condition and the assignment to
`__last_download_time` there is no `await`, so under asyncio's
cooperative scheduling they form one atomic step — the `grant`
transition, which is also the moment the download is dispatched.  Wall
clock readings are modelled as exact rationals. -/

structure GateCfg where
  maxConc : Nat
  period : ℚ

/-- `DownloadManager.__init__`: the semaphore size is
`max_concurrent_downloads` (default 10) and
`__min_request_period = 1.0 / max_requests_per_second` (default 50). -/
def mkGateCfg (maxConcurrentDownloads maxRequestsPerSecond : Nat) : GateCfg :=
  ⟨maxConcurrentDownloads, 1 / (maxRequestsPerSecond : ℚ)⟩

/-- Where a task is in `_safe_download`: not yet at the semaphore, inside
the semaphore at the rate-check loop, parked in `asyncio.sleep`, running
the wrapped download, or done (token released). -/
inductive TPhase where
  | idle
  | gated
  | sleeping
  | running
  | finished
deriving DecidableEq

/-- A task holds a semaphore token from acquisition to completion. -/
def holdsToken : TPhase → Bool
  | .gated => true
  | .sleeping => true
  | .running => true
  | _ => false

structure GateSt where
  now : ℚ
  last : ℚ
  avail : Nat
  tasks : List TPhase

/-- Number of tasks currently holding a token. -/
def holders (s : GateSt) : Nat := (s.tasks.filter holdsToken).length

/-- Initial state: `__last_download_time = time.time()` at construction,
all tokens available, every task before the semaphore. -/
def initGate (cfg : GateCfg) (n : Nat) (t0 : ℚ) : GateSt :=
  ⟨t0, t0, cfg.maxConc, List.replicate n .idle⟩

inductive GateEv where
  | tick (d : ℚ)
  | acquire (i : Nat)
  | grant (i : Nat)
  | sleepStart (i : Nat)
  | wake (i : Nat)
  | finish (i : Nat) (ok : Bool)

/-- One scheduler step.  `grant` is the atomic exit-check-and-stamp: it
requires `period ≤ now - last` (the `while` condition is false) and sets
`last := now`; `sleepStart` is the true branch of the `while`; `finish`
releases the token whether the download succeeded (`ok = true`) or threw
(`ok = false`). -/
inductive GStep (cfg : GateCfg) : GateSt → GateEv → GateSt → Prop where
  | tick : 0 ≤ d →
      GStep cfg ⟨now, last, avail, tasks⟩ (.tick d) ⟨now + d, last, avail, tasks⟩
  | acquire : tasks.get? i = some .idle → 0 < avail →
      GStep cfg ⟨now, last, avail, tasks⟩ (.acquire i)
        ⟨now, last, avail - 1, tasks.set i .gated⟩
  | grant : tasks.get? i = some .gated → cfg.period ≤ now - last →
      GStep cfg ⟨now, last, avail, tasks⟩ (.grant i)
        ⟨now, now, avail, tasks.set i .running⟩
  | sleepStart : tasks.get? i = some .gated → now - last < cfg.period →
      GStep cfg ⟨now, last, avail, tasks⟩ (.sleepStart i)
        ⟨now, last, avail, tasks.set i .sleeping⟩
  | wake : tasks.get? i = some .sleeping →
      GStep cfg ⟨now, last, avail, tasks⟩ (.wake i)
        ⟨now, last, avail, tasks.set i .gated⟩
  | finish : tasks.get? i = some .running →
      GStep cfg ⟨now, last, avail, tasks⟩ (.finish i ok)
        ⟨now, last, avail + 1, tasks.set i .finished⟩

/-- A run: a list of `(pre-state wall clock, event)` records. -/
inductive GRun (cfg : GateCfg) : GateSt → List (ℚ × GateEv) → GateSt → Prop where
  | nil : GRun cfg s [] s
  | cons : GStep cfg s e s' → GRun cfg s' tr s'' → GRun cfg s ((s.now, e) :: tr) s''

def isGrant : GateEv → Bool
  | .grant _ => true
  | _ => false

/-- The wall-clock times at which tokens were granted (downloads
dispatched), in order. -/
def grantTimes (tr : List (ℚ × GateEv)) : List ℚ :=
  (tr.filter (fun te => isGrant te.2)).map Prod.fst

/-- `SepFrom p b ts`: successive elements of `ts` each exceed their
predecessor (and `b` initially) by at least `p`. -/
inductive SepFrom (p : ℚ) : ℚ → List ℚ → Prop where
  | nil : SepFrom p b []
  | cons : b + p ≤ t → SepFrom p t ts → SepFrom p b (t :: ts)

theorem filter_length_set (f : TPhase → Bool) :
    ∀ (l : List TPhase) (i : Nat) (p q : TPhase), l.get? i = some p →
      ((l.set i q).filter f).length + (if f p then 1 else 0) =
        (l.filter f).length + (if f q then 1 else 0) := by
  intro l
  induction l with
  | nil => intro i p q h; cases h
  | cons a rest ih =>
    intro i p q h
    cases i with
    | zero =>
      simp only [List.get?] at h
      cases h
      simp only [List.set, List.filter_cons]
      cases hq : f q <;> cases ha : f a <;> simp [hq, ha]
    | succ i =>
      simp only [List.get?] at h
      have := ih i p q h
      simp only [List.set, List.filter_cons]
      cases ha : f a <;> simp [ha] <;> omega

theorem step_holders_inv {cfg : GateCfg} {s s' : GateSt} {e : GateEv}
    (h : GStep cfg s e s') (hinv : holders s + s.avail = cfg.maxConc) :
    holders s' + s'.avail = cfg.maxConc := by
  cases h with
  | tick hd => exact hinv
  | acquire hget havail =>
    have hf := filter_length_set holdsToken _ _ .idle .gated hget
    simp [holdsToken] at hf
    simp only [holders] at hinv ⊢
    omega
  | grant hget hper =>
    have hf := filter_length_set holdsToken _ _ .gated .running hget
    simp [holdsToken] at hf
    simp only [holders] at hinv ⊢
    omega
  | sleepStart hget hper =>
    have hf := filter_length_set holdsToken _ _ .gated .sleeping hget
    simp [holdsToken] at hf
    simp only [holders] at hinv ⊢
    omega
  | wake hget =>
    have hf := filter_length_set holdsToken _ _ .sleeping .gated hget
    simp [holdsToken] at hf
    simp only [holders] at hinv ⊢
    omega
  | finish hget =>
    have hf := filter_length_set holdsToken _ _ .running .finished hget
    simp [holdsToken] at hf
    simp only [holders] at hinv ⊢
    omega

theorem run_holders_inv {cfg : GateCfg} {s s' : GateSt} {tr : List (ℚ × GateEv)}
    (h : GRun cfg s tr s') (hinv : holders s + s.avail = cfg.maxConc) :
    holders s' + s'.avail = cfg.maxConc := by
  induction h with
  | nil => exact hinv
  | cons hstep hrun ih => exact ih (step_holders_inv hstep hinv)

theorem holders_initGate (cfg : GateCfg) (n : Nat) (t0 : ℚ) :
    holders (initGate cfg n t0) = 0 := by
  simp only [holders, initGate]
  induction n with
  | zero => rfl
  | succ n ih => simpa [List.replicate_succ, List.filter_cons, holdsToken] using ih

theorem step_finish_releases {cfg : GateCfg} {s s' : GateSt} {i : Nat} {ok : Bool}
    (h : GStep cfg s (.finish i ok) s') :
    s'.avail = s.avail + 1 ∧ s'.tasks.get? i = some .finished ∧
      holders s' + 1 = holders s := by
  cases h with
  | finish hget =>
    refine ⟨rfl, ?_, ?_⟩
    · obtain ⟨hlt, -⟩ := List.get?_eq_some.mp hget
      exact List.get?_set_eq_of_lt .finished hlt
    · have hf := filter_length_set holdsToken _ _ .running .finished hget
      simp [holdsToken] at hf
      simp only [holders]
      omega

theorem grantTimes_cons_not (t : ℚ) (e : GateEv) (tr : List (ℚ × GateEv))
    (h : isGrant e = false) : grantTimes ((t, e) :: tr) = grantTimes tr := by
  simp [grantTimes, List.filter_cons, h]

theorem grantTimes_cons_grant (t : ℚ) (i : Nat) (tr : List (ℚ × GateEv)) :
    grantTimes ((t, .grant i) :: tr) = t :: grantTimes tr := by
  simp [grantTimes, List.filter_cons, isGrant]

theorem run_sep {cfg : GateCfg} {s s' : GateSt} {tr : List (ℚ × GateEv)}
    (h : GRun cfg s tr s') :
    s.last ≤ s.now → SepFrom cfg.period s.last (grantTimes tr) := by
  induction h with
  | nil => intro _; exact SepFrom.nil
  | cons hstep hrun ih =>
    intro hle
    cases hstep with
    | tick hd =>
      have ih' := ih (by simp only at hle ⊢; linarith)
      simpa [grantTimes, List.filter_cons, isGrant] using ih'
    | acquire hget havail =>
      simpa [grantTimes, List.filter_cons, isGrant] using ih hle
    | grant hget hper =>
      have ih' := ih (le_refl _)
      simp only at hle hper
      have hcons := SepFrom.cons (by linarith) ih'
      simpa [grantTimes, List.filter_cons, isGrant] using hcons
    | sleepStart hget hper =>
      simpa [grantTimes, List.filter_cons, isGrant] using ih hle
    | wake hget =>
      simpa [grantTimes, List.filter_cons, isGrant] using ih hle
    | finish hget =>
      simpa [grantTimes, List.filter_cons, isGrant] using ih hle

theorem sepFrom_le {p : ℚ} (hp : 0 ≤ p) {b : ℚ} {ts : List ℚ}
    (h : SepFrom p b ts) : ∀ u ∈ ts, b + p ≤ u := by
  induction h with
  | nil => intro u hu; cases hu
  | cons hbt hsep ih =>
    intro u hu
    rcases List.mem_cons.mp hu with rfl | hu'
    · exact hbt
    · have := ih u hu'
      linarith

theorem sepFrom_pairwise {p : ℚ} (hp : 0 ≤ p) {b : ℚ} {ts : List ℚ}
    (h : SepFrom p b ts) : ts.Pairwise (fun t1 t2 => t1 + p ≤ t2) := by
  induction h with
  | nil => exact List.Pairwise.nil
  | cons hbt hsep ih => exact List.Pairwise.cons (sepFrom_le hp hsep) ih

/-- Claim C8: for every run of the gate from its initial state, (a) the
number of tasks simultaneously holding a semaphore token never exceeds
`max_concurrent_downloads`, (b) any two token grants (download
dispatches) are separated by at least `1/max_requests_per_second`
seconds of the modelled wall clock, (c) a `finish` step — successful or
failed alike — returns the token and leaves the task non-holding, and
(d) the defaults are 10 concurrent downloads and a 1/50-second minimum
period. -/
theorem C8_gate_concurrency_and_rate :
    (∀ (maxConc maxRps numTasks : Nat) (t0 : ℚ) (tr : List (ℚ × GateEv)) (s' : GateSt),
      GRun (mkGateCfg maxConc maxRps) (initGate (mkGateCfg maxConc maxRps) numTasks t0)
        tr s' →
      holders s' ≤ maxConc ∧
      (grantTimes tr).Pairwise (fun t1 t2 => t1 + 1 / (maxRps : ℚ) ≤ t2)) ∧
    (∀ (cfg : GateCfg) (s s' : GateSt) (i : Nat) (ok : Bool),
      GStep cfg s (.finish i ok) s' →
      s'.avail = s.avail + 1 ∧ s'.tasks.get? i = some .finished ∧
        holders s' + 1 = holders s) ∧
    (mkGateCfg 10 50).maxConc = 10 ∧
    (mkGateCfg 10 50).period = 1 / 50 := by
  refine ⟨?_, ?_, rfl, rfl⟩
  · intro maxConc maxRps numTasks t0 tr s' hrun
    constructor
    · have hinit : holders (initGate (mkGateCfg maxConc maxRps) numTasks t0) +
          (initGate (mkGateCfg maxConc maxRps) numTasks t0).avail =
          (mkGateCfg maxConc maxRps).maxConc := by
        rw [holders_initGate]
        simp [initGate]
      have := run_holders_inv hrun hinit
      have hmc : (mkGateCfg maxConc maxRps).maxConc = maxConc := rfl
      omega
    · have hp : (0 : ℚ) ≤ 1 / (maxRps : ℚ) := by positivity
      have hsep := run_sep hrun (le_refl _)
      exact sepFrom_pairwise hp hsep
  · intro cfg s s' i ok hstep
    exact step_finish_releases hstep

/-- Witness for C8: the empty run from the default configuration's
initial state with 3 tasks satisfies the bounds, and a concrete `finish`
step (with `ok = false`, i.e. the download raised) releases its token. -/
theorem C8_witness :
    (holders (initGate (mkGateCfg 10 50) 3 0) ≤ 10 ∧
      (grantTimes ([] : List (ℚ × GateEv))).Pairwise
        (fun t1 t2 => t1 + 1 / ((50 : Nat) : ℚ) ≤ t2)) ∧
    ((⟨0, 0, 10, [.finished]⟩ : GateSt).avail =
        (⟨0, 0, 9, [.running]⟩ : GateSt).avail + 1 ∧
      (⟨0, 0, 10, [.finished]⟩ : GateSt).tasks.get? 0 = some .finished ∧
      holders ⟨0, 0, 10, [.finished]⟩ + 1 = holders ⟨0, 0, 9, [.running]⟩) :=
  ⟨C8_gate_concurrency_and_rate.1 10 50 3 0 [] (initGate (mkGateCfg 10 50) 3 0) GRun.nil,
   C8_gate_concurrency_and_rate.2.1 (mkGateCfg 10 50) ⟨0, 0, 9, [.running]⟩
     ⟨0, 0, 10, [.finished]⟩ 0 false (GStep.finish rfl)⟩
